import Mathlib

/-!
Verification of the VISCA command-codec core against its specification.

The development shallowly embeds the two Python variants of the codec:

* namespace Commands models src/Commands.py (class Field, class Command,
  bit-exact serialization through the bitstring library, the register-form
  CRC-16 with polynomial 0x8005);
* namespace catlitter models src/catlitter/CommandLoader.py (class Field,
  class Command, per-field byte padding, the CCITT-style CRC-16 with
  polynomial 0x1021).

Python exceptions are modelled with Except String carrying the message of
the assert, raise, or runtime error that the interpreter would produce;
an error value means the original object is left unmutated, because the
exception propagates before any assignment that follows it.  Field values
are unsigned integers (the data model declares them unsigned), hence Nat.
Python truthiness tests on optional numeric attributes (if self.min: and
the like) are rendered with Option.getD 0 so that both None and 0 are
falsy, exactly as in the source.
-/

set_option maxRecDepth 4000

namespace VISCA

/-! ### Bit-level primitives

The bitstring library used by src/Commands.py represents Bits(uint=v,
length=n) as the n-bit most-significant-bit-first string of v, and
Bits.tobytes packs the concatenated stream into bytes, padding the low
bits of the final byte with zeros.  We model bit strings as List Bool. -/

/-- Value of a most-significant-bit-first bit string. -/
def bitsToNat : List Bool → Nat
  | [] => 0
  | b :: t => b.toNat * 2 ^ t.length + bitsToNat t

/-- Most-significant-bit-first bit string of width n for value v, the
shallow embedding of Bits(uint=v, length=n). -/
def msbBits : Nat → Nat → List Bool
  | 0, _ => []
  | n + 1, v => v.testBit n :: msbBits n v

/-- Helper consuming eight bits per produced byte; the fuel argument
counts the number of bytes still to produce. -/
def bitsToBytesAux : Nat → List Bool → List Nat
  | 0, _ => []
  | n + 1, l =>
    bitsToNat (l.take 8 ++ List.replicate (8 - (l.take 8).length) false) ::
      bitsToBytesAux n (l.drop 8)

/-- Pack a bit stream into bytes most-significant-bit first, padding the
low bits of the final byte with zeros: the embedding of Bits.tobytes. -/
def bitsToBytes (l : List Bool) : List Nat :=
  bitsToBytesAux ((l.length + 7) / 8) l

/-- Unpack bytes into the corresponding most-significant-bit-first
bit stream. -/
def bytesToBits (bs : List Nat) : List Bool :=
  (bs.map (fun b => msbBits 8 b)).flatten

namespace Commands

/-- Field of src/Commands.py.  The attributes load, min and max default to
None; value defaults to 0 and size to 8, as in Field.init.  The help
string plays no role in any claim and is omitted. -/
structure Field where
  name : String := ""
  value : Nat := 0
  load : Option (List Nat) := none
  min : Option Nat := none
  max : Option Nat := none
  size : Nat := 8
  deriving Repr, DecidableEq

instance : Inhabited Field := ⟨{}⟩

/-- Field.set_val of src/Commands.py.  The min and max assertions are
guarded by Python truthiness (if self.min: and if self.max:), so a bound
that is None or 0 is never checked; a failing assertion propagates as
AssertionError before any mutation.  The membership assertion
(value in self.load) sits inside a try block with a bare except that only
logs, so a load violation never prevents the assignment.  The final
isinstance(value, int) test always succeeds for our unsigned values. -/
def Field.set_val (f : Field) (v : Nat) : Except String Field :=
  if f.min.getD 0 ≠ 0 ∧ v < f.min.getD 0 then
    .error "Error while trying to set value. Did you check min?"
  else if f.max.getD 0 ≠ 0 ∧ f.max.getD 0 < v then
    .error "Error while trying to set value. Did you check max?"
  else
    .ok { f with value := v }

/-- Field.get_raw of src/Commands.py: Bits(uint=self.value,
length=self.size), the size-bit msb-first representation of value.  The
bitstring constructor raises CreationError when the value does not fit in
size bits. -/
def Field.get_raw (f : Field) : Except String (List Bool) :=
  if f.value < 2 ^ f.size then .ok (msbBits f.size f.value)
  else .error "CreationError"

/-- Command of src/Commands.py.  The source keeps fields in a dict keyed
by consecutive insertion indices 0, 1, ...; iteration yields them in index
order, so an ordered list is a faithful rendering. -/
structure Command where
  fields : List Field := []
  deriving Repr, DecidableEq

/-- Loop body of Command.get_raw: result += field.get_raw() over a list
of fields, concatenating the bit strings; any CreationError propagates. -/
def rawBits : List Field → Except String (List Bool)
  | [] => .ok []
  | f :: fs =>
    match f.get_raw with
    | .error m => .error m
    | .ok b =>
      match rawBits fs with
      | .error m => .error m
      | .ok r => .ok (b ++ r)

/-- Python slice fields[start : stop + 1] on a field list. -/
def sliceFields (fs : List Field) (start stop : Nat) : List Field :=
  (fs.drop start).take (stop + 1 - start)

/-- Command.get_raw of src/Commands.py.  Mirrors the source exactly:
the assert on emptiness, the truthiness test if not end_index: (which
replaces both None and 0 by len(self)), the inclusive slice, the
concatenation of per-field bit strings, and Bits.tobytes with its zero
padding; when the slice is empty the result variable is still the
initial b'' so the isinstance check fails and ValueError is raised. -/
def Command.get_raw (c : Command) (start : Nat) (endIdx : Option Nat) :
    Except String (List Nat) :=
  if c.fields.length = 0 then .error "Add some fields first."
  else
    let e := match endIdx with
      | none => c.fields.length
      | some k => if k = 0 then c.fields.length else k
    let fs := sliceFields c.fields start e
    match rawBits fs with
    | .error m => .error m
    | .ok bits => if fs.isEmpty then .error "ValueError" else .ok (bitsToBytes bits)

/-- Name branch of Command.get_field: scan the fields in positional order
and return the first whose name matches; when no name is given, or the
name is the empty (falsy) string, or nothing matches, the source logs an
error and returns None, which we render as an error value. -/
def get_field_by_name (c : Command) (name : Option String) : Except String Field :=
  match name with
  | some n =>
    if n ≠ "" then
      match c.fields.find? (fun f => f.name == n) with
      | some f => .ok f
      | none => .error "None"
    else .error "None"
  | none => .error "None"

/-- Command.get_field of src/Commands.py.  The guard if index: is a
Python truthiness test, so index 0 falls through to the name branch; a
nonzero index out of range raises KeyError on the fields dict. -/
def Command.get_field (c : Command) (name : Option String) (index : Option Nat) :
    Except String Field :=
  match index with
  | some i =>
    if i ≠ 0 then
      match c.fields[i]? with
      | some f => .ok f
      | none => .error "KeyError"
    else get_field_by_name c name
  | none => get_field_by_name c name

/-- Command.set_field of src/Commands.py: get_field(name=name) locates
the first field with the given name and set_val mutates it in place; we
locate its index to rebuild the list.  When get_field returns None the
subsequent attribute access raises AttributeError. -/
def Command.set_field (c : Command) (name : String) (v : Nat) :
    Except String Command :=
  match c.fields.findIdx? (fun f => f.name == name) with
  | none => .error "AttributeError"
  | some j =>
    match c.fields[j]? with
    | none => .error "AttributeError"
    | some f =>
      match f.set_val v with
      | .error m => .error m
      | .ok f2 => .ok { fields := c.fields.set j f2 }

/-- One bit iteration of the register-form CRC in Command.crc16_calculate:
sample the top bit of the register, shift left, keep 16 bits, and XOR in
the polynomial 0x8005 when the data bit differs from the sampled top
bit. -/
def crcA_step (dataBit r : Nat) : Nat :=
  let crcBit := (r >>> 15) &&& 1
  let r2 := (r <<< 1) &&& 0xFFFF
  if dataBit ≠ crcBit then (r2 ^^^ 0x8005) &&& 0xFFFF else r2

/-- Inner loop of crc16_calculate over one byte, least significant bit
first (shift_register in range(8) with (data[counter] >> shift) & 1). -/
def crcA_bits : Nat → Nat → Nat → Nat
  | 0, _, r => r
  | k + 1, byte, r => crcA_bits k (byte >>> 1) (crcA_step (byte &&& 1) r)

/-- Outer loop of crc16_calculate over the data bytes. -/
def crc16_registerAux : Nat → List Nat → Nat
  | r, [] => r
  | r, b :: rest => crc16_registerAux (crcA_bits 8 b r) rest

/-- Register-form CRC-16 of src/Commands.py (and of the claim for the
variant-A checksum): 16-bit register starting at 0x0000, polynomial
0x8005, bytes processed least-significant-bit first, XOR-in-compare
against the top bit of the register. -/
def crc16_register (data : List Nat) : Nat := crc16_registerAux 0 data

/-- Byte swap of a 16-bit value: the source stores
int.from_bytes(bytes([register & 0xFF, register >> 8]), "big"), which is
low byte times 256 plus high byte. -/
def swapBytes (r : Nat) : Nat := (r &&& 0xFF) * 256 + ((r >>> 8) &&& 0xFF)

/-- Command.crc16_calculate of src/Commands.py, in source order: slice
the fields, sum their sizes, assert byte alignment, serialize the range
through get_raw (note: with end_index = stop, so the truthiness quirk of
get_raw applies when stop is 0), run the register CRC over length bytes,
then write the byte-swapped register into the first field whose name
equals the name of fields_total[target_index]. -/
def Command.crc16_calculate (c : Command) (start stop target : Nat) :
    Except String Command :=
  let fields := sliceFields c.fields start stop
  let size := (fields.map Field.size).sum
  if size % 8 ≠ 0 then .error "CRC only works for full bytes here."
  else
    match c.get_raw start (some stop) with
    | .error m => .error m
    | .ok data =>
      if data.length < size / 8 then .error "IndexError"
      else
        let r := crc16_register (data.take (size / 8))
        match c.fields[target]? with
        | none => .error "IndexError"
        | some tf => c.set_field tf.name (swapBytes r)

end Commands

/-- Map with the positional index, used to render loops of
src/catlitter/CommandLoader.py that mutate self.fields at index i. -/
def mapIdx {α : Type} (g : Nat → α → α) : Nat → List α → List α
  | _, [] => []
  | i, x :: xs => g i x :: mapIdx g (i + 1) xs

namespace catlitter

/-- Field of src/catlitter/CommandLoader.py.  Attributes come from
dict.get on the schema entry; size is an integer that may carry the
sentinel -1 for an invalid width, so it is modelled as Int.  The index
and help attributes play no role in any claim and are omitted. -/
structure Field where
  name : String := ""
  load : Option (List Nat) := none
  min : Option Nat := none
  max : Option Nat := none
  size : Int := 8
  value : Nat := 0
  deriving Repr, DecidableEq

instance : Inhabited Field := ⟨{}⟩

/-- Field.set_load of src/catlitter/CommandLoader.py.  When min and max
are both truthy and the value lies between them the method assigns and
returns; in every other case control falls to the unconditional
assignment and return that follow, so the trailing raise ValueError is
unreachable and the method always stores the value. -/
def set_load (f : Field) (v : Nat) : Field := { f with value := v }

/-- Zeroing applied by update and calculate_checksum: if field.load is
None then field.value = 0 (an identity test against None, not a
truthiness test). -/
def zeroIfNoLoad (f : Field) : Field :=
  if f.load.isNone then { f with value := 0 } else f

/-- Big-endian byte string of fixed length, most significant byte
first. -/
def beBytes : Nat → Nat → List Nat
  | 0, _ => []
  | n + 1, v => v / 256 ^ n % 256 :: beBytes n v

/-- Python int.to_bytes(length, byteorder="big"), which raises
OverflowError when the value does not fit. -/
def natToBytes (len v : Nat) : Except String (List Nat) :=
  if v < 256 ^ len then .ok (beBytes len v) else .error "OverflowError"

/-- Per-field body shared by update and calculate_checksum: reject the
sentinel size -1, pad the size up to whole bytes with (size + 7) // 8,
zero the value when load is None, then emit the big-endian bytes. -/
def fieldBytes (f : Field) : Except String (List Nat) :=
  if f.size = -1 then .error ("Field " ++ f.name ++ " has invalid size -1")
  else natToBytes ((f.size + 7) / 8).toNat (zeroIfNoLoad f).value

/-- Loop of update and calculate_checksum concatenating the per-field
byte strings. -/
def rawBytes : List Field → Except String (List Nat)
  | [] => .ok []
  | f :: fs =>
    match fieldBytes f with
    | .error m => .error m
    | .ok b =>
      match rawBytes fs with
      | .error m => .error m
      | .ok r => .ok (b ++ r)

/-- Command of src/catlitter/CommandLoader.py: an insertion-ordered field
collection plus the cached raw byte string (the source stores its hex
rendering, an injective encoding of the same bytes). -/
structure Command where
  fields : List Field := []
  raw : Option (List Nat) := none
  deriving Repr, DecidableEq

/-- Command.update: walk every field, zero the value of each field whose
load is None, concatenate the per-field big-endian byte strings, and
cache the result in self.raw.  The zeroing mutates the fields
persistently. -/
def update (c : Command) : Except String Command :=
  match rawBytes c.fields with
  | .error m => .error m
  | .ok bytes => .ok { fields := c.fields.map zeroIfNoLoad, raw := some bytes }

/-- Command.add_field: append the new field at the next index and run
update. -/
def add_field (c : Command) (f : Field) : Except String Command :=
  update { c with fields := c.fields ++ [f] }

/-- Command.set_parameter: find the first field with the given name,
store the value through set_load, then run update; raises ValueError when
no field matches. -/
def set_parameter (c : Command) (name : String) (v : Nat) :
    Except String Command :=
  match c.fields.findIdx? (fun f => f.name == name) with
  | none => .error ("No field found with name " ++ name)
  | some j =>
    match c.fields[j]? with
    | none => .error ("No field found with name " ++ name)
    | some f => update { c with fields := c.fields.set j (set_load f v) }

/-- Command.get_raw: run update and return the cached raw bytes. -/
def get_raw (c : Command) : Except String (Option (List Nat)) :=
  match update c with
  | .error m => .error m
  | .ok c2 => .ok c2.raw

/-- One shift iteration of the static crc16 of
src/catlitter/CommandLoader.py: shift left and XOR in 0x1021 when bit 15
of the (unmasked) register was set.  The source masks the register to 16
bits only after the eight iterations of a byte. -/
def crcB_step (r : Nat) : Nat :=
  if r &&& 0x8000 ≠ 0 then (r <<< 1) ^^^ 0x1021 else r <<< 1

/-- Eight shift iterations of crc16 for one byte. -/
def crcB_shift : Nat → Nat → Nat
  | 0, r => r
  | k + 1, r => crcB_shift k (crcB_step r)

/-- Byte loop of crc16: XOR the byte into the high byte of the register,
run eight shift iterations, then mask to 16 bits. -/
def crc16Aux : Nat → List Nat → Nat
  | r, [] => r
  | r, b :: rest => crc16Aux (crcB_shift 8 (r ^^^ (b <<< 8)) &&& 0xFFFF) rest

/-- Command.crc16 of src/catlitter/CommandLoader.py: CCITT-style CRC-16,
initial register 0xFFFF, polynomial 0x1021, bytes processed most
significant bit first. -/
def crc16 (data : List Nat) : Nat := crc16Aux 0xFFFF data

/-- Python slice of the checksum range: the fields at indices start
through stop inclusive. -/
def sliceFields (fs : List Field) (start stop : Nat) : List Field :=
  (fs.drop start).take (stop + 1 - start)

/-- Command.calculate_checksum of src/catlitter/CommandLoader.py:
validate the indices (start_index < 0 cannot arise for Nat), walk the
fields of the inclusive range zeroing every field whose load is None
while concatenating their padded big-endian bytes, run crc16 over those
bytes, and store the checksum into the field at target_index through
set_load.  No update is run, so self.raw is left stale, and no bit
alignment is ever checked: a 13-bit field is simply padded to 2 bytes. -/
def calculate_checksum (c : Command) (start stop target : Nat) :
    Except String Command :=
  if c.fields.length ≤ stop ∨ c.fields.length ≤ target then .error "Invalid indices"
  else
    match rawBytes (sliceFields c.fields start stop) with
    | .error m => .error m
    | .ok bytes =>
      let cksum := crc16 bytes
      let zapped := mapIdx
        (fun i f => if start ≤ i ∧ i ≤ stop then zeroIfNoLoad f else f) 0 c.fields
      let stored := mapIdx (fun i f => if i = target then set_load f cksum else f) 0 zapped
      .ok { c with fields := stored }

/-- Command.getitem of src/catlitter/CommandLoader.py: return the first
field whose name matches; when nothing matches the raise statement
itself crashes with NameError because its f-string references the
undefined variable name, but either way the lookup fails. -/
def getitem (c : Command) (item : String) : Except String Field :=
  match c.fields.find? (fun f => f.name == item) with
  | some f => .ok f
  | none => .error "NameError"

end catlitter

/-! ### Specification-side definitions

The definitions below follow the words of the specification and of the
claims, to be compared with the source embeddings above. -/

/-- Concatenation, in positional order, of the size-bit msb-first
unsigned representation of each field value: the bit stream the
specification says serialize packs into bytes. -/
def fieldStream : List Commands.Field → List Bool
  | [] => []
  | f :: fs => msbBits f.size f.value ++ fieldStream fs

/-- Total bit width of a field sequence (size_bits of the spec). -/
def sizeBits (fs : List Commands.Field) : Nat := (fs.map Commands.Field.size).sum

/-- Modelled from the spec: the set contract of section 4.1, failing with
ConstraintViolation when an allowed_values set is present and the value
is not a member, or when a min or max bound is present and violated;
src/ has no implementation of this contract (Field.set_val deviates), so
deserialization below assigns through this spec-faithful set. -/
def set_spec (f : Commands.Field) (v : Nat) : Except String Commands.Field :=
  let loadViol := match f.load with
    | some l => !(l.contains v)
    | none => false
  let minViol := match f.min with
    | some m => decide (v < m)
    | none => false
  let maxViol := match f.max with
    | some m => decide (m < v)
    | none => false
  if loadViol then .error "ConstraintViolation"
  else if minViol then .error "ConstraintViolation"
  else if maxViol then .error "ConstraintViolation"
  else .ok { f with value := v }

/-- Modelled from the spec: the field walk of deserialize, extracting
size bits at a time from the msb-first bit stream and assigning each
value to the corresponding field via set. -/
def deserializeGo : List Commands.Field → List Bool → Except String (List Commands.Field)
  | [], _ => .ok []
  | f :: fs, bits =>
    match set_spec f (bitsToNat (bits.take f.size)) with
    | .error m => .error m
    | .ok f2 =>
      match deserializeGo fs (bits.drop f.size) with
      | .error m => .error m
      | .ok rest => .ok (f2 :: rest)

/-- Modelled from the spec: deserialize(bytes, template) of section 4.2.
No deserializer exists anywhere under src/, so this definition follows
the specification words: fail with TruncatedInput when the buffer holds
fewer bits than size_bits requires, otherwise walk the fields in order,
extracting size bits msb-first per field and assigning via set. -/
def deserialize (template : List Commands.Field) (buf : List Nat) :
    Except String (List Commands.Field) :=
  if (bytesToBits buf).length < sizeBits template then .error "TruncatedInput"
  else deserializeGo template (bytesToBits buf)

/-- One shift iteration of the CCITT CRC as the claim words it, with the
register masked to 16 bits throughout. -/
def crcB_step_spec (r : Nat) : Nat :=
  (if r &&& 0x8000 ≠ 0 then (r <<< 1) ^^^ 0x1021 else r <<< 1) &&& 0xFFFF

/-- Eight masked shift iterations for one byte. -/
def crcB_shift_spec : Nat → Nat → Nat
  | 0, r => r
  | k + 1, r => crcB_shift_spec k (crcB_step_spec r)

/-- Byte loop of the claim-worded CCITT CRC: XOR the byte into the high
byte of the 16-bit register, then eight masked shift iterations. -/
def crc16_ccittAux : Nat → List Nat → Nat
  | r, [] => r
  | r, b :: rest => crc16_ccittAux (crcB_shift_spec 8 ((r ^^^ (b <<< 8)) &&& 0xFFFF)) rest

/-- CCITT-style CRC-16 exactly as the variant-B claim describes it:
initial register 0xFFFF, polynomial 0x1021, most-significant-bit-first
shift-and-XOR, register masked to 16 bits. -/
def crc16_ccitt_spec (data : List Nat) : Nat := crc16_ccittAux 0xFFFF data

instance {ε α : Type} [DecidableEq ε] [DecidableEq α] : DecidableEq (Except ε α)
  | .error a, .error b =>
    if h : a = b then .isTrue (congrArg Except.error h)
    else .isFalse (fun hx => h (Except.error.inj hx))
  | .error _, .ok _ => .isFalse (fun hx => Except.noConfusion hx)
  | .ok _, .error _ => .isFalse (fun hx => Except.noConfusion hx)
  | .ok a, .ok b =>
    if h : a = b then .isTrue (congrArg Except.ok h)
    else .isFalse (fun hx => h (Except.ok.inj hx))

/-! ### Concrete fixtures taken from the unit tests in the sources -/

/-- Six-field CMD_BOARD_INFO command built in the unit test of
src/Commands.py, after set_field has stored 0x58 into HEADER_CRC. -/
def cmdBoard : Commands.Command := ⟨[
  { name := "START_CHARACTER", value := 0x24, load := some [0x24], size := 8 },
  { name := "COMMAND_ID", value := 0x56, load := some [0x56], size := 8 },
  { name := "PAYLOAD_SIZE", value := 2, size := 8 },
  { name := "HEADER_CRC", value := 0x58, size := 8 },
  { name := "PAYLOAD", value := 0, size := 16 },
  { name := "CRC", value := 0, size := 16 }]⟩

/-- Two 8-bit fields, used to exhibit the end_index truthiness slip. -/
def cmdTwo : Commands.Command :=
  ⟨[{ name := "A", value := 1, size := 8 }, { name := "B", value := 2, size := 8 }]⟩

/-- One-field command for the index-0 lookup counterexample. -/
def cmdOne : Commands.Command := ⟨[{ name := "A", value := 1, size := 8 }]⟩

/-- The 13-bit field with allowed values [0x56, 0, 1, 3, 4] from the unit
test of src/Commands.py. -/
def exampleField : Commands.Field :=
  { name := "EXAMPLE_FIELD1", value := 0x56, load := some [0x56, 0, 1, 3, 4], size := 13 }

/-- A field whose max bound is the falsy value 0. -/
def maxZeroField : Commands.Field :=
  { name := "F", value := 0, max := some 0, size := 8 }

/-- A catlitter field carrying bounds 1 to 5 and no allowed values. -/
def boundedField : catlitter.Field :=
  { name := "G", load := none, min := some 1, max := some 5, size := 8, value := 0 }

/-- A catlitter command whose first field is 13 bits wide, so the range
[0, 0] is not byte aligned. -/
def cmdUnaligned : catlitter.Command :=
  ⟨[{ name := "A", load := some [5], size := 13, value := 5 },
    { name := "B", load := none, size := 16, value := 0 }], none⟩

/-- A catlitter command with one constant field and two load-less 16-bit
checksum slots, shaped like the commands CommandBuilder assembles. -/
def cmdChain : catlitter.Command :=
  ⟨[{ name := "S", load := some [0x24], size := 8, value := 0x24 },
    { name := "H", load := none, size := 16, value := 0 },
    { name := "P", load := none, size := 16, value := 0 }], none⟩

/-- A catlitter command holding a stale nonzero value in a load-less
field, as left behind by a previous checksum store. -/
def cmdStale : catlitter.Command :=
  ⟨[{ name := "S", load := some [0x24], size := 8, value := 0x24 },
    { name := "H", load := none, size := 16, value := 34070 },
    { name := "P", load := none, size := 16, value := 0 }], none⟩

/-- A Commands command whose first field is 13 bits wide, so the range
[0, 0] is not byte aligned. -/
def cmdThirteen : Commands.Command :=
  ⟨[exampleField, { name := "X", value := 0, size := 16 }]⟩

/-! ### Lemma kit for the bit-level primitives -/

theorem length_msbBits (n v : Nat) : (msbBits n v).length = n := by
  induction n generalizing v with
  | zero => rfl
  | succ n ih => simp [msbBits, ih]

theorem bitsToNat_lt (l : List Bool) : bitsToNat l < 2 ^ l.length := by
  induction l with
  | nil => simp [bitsToNat]
  | cons b t ih =>
    simp only [bitsToNat, List.length_cons, pow_succ]
    cases b <;> simp [Bool.toNat] <;> omega

theorem msbBits_congr {n a b : Nat} (h : a % 2 ^ n = b % 2 ^ n) :
    msbBits n a = msbBits n b := by
  induction n with
  | zero => rfl
  | succ n ih =>
    have hbit : a.testBit n = b.testBit n := by
      have ha : (a % 2 ^ (n + 1)).testBit n = a.testBit n := by
        rw [Nat.testBit_mod_two_pow]
        simp [Nat.lt_succ_self]
      have hb : (b % 2 ^ (n + 1)).testBit n = b.testBit n := by
        rw [Nat.testBit_mod_two_pow]
        simp [Nat.lt_succ_self]
      rw [← ha, ← hb, h]
    have hmod : a % 2 ^ n = b % 2 ^ n := by
      have h2 : (2 : Nat) ^ n ∣ 2 ^ (n + 1) := Nat.pow_dvd_pow 2 (Nat.le_succ n)
      calc a % 2 ^ n = a % 2 ^ (n + 1) % 2 ^ n := (Nat.mod_mod_of_dvd a h2).symm
        _ = b % 2 ^ (n + 1) % 2 ^ n := by rw [h]
        _ = b % 2 ^ n := Nat.mod_mod_of_dvd b h2
    simp [msbBits, hbit, ih hmod]

theorem bitsToNat_msbBits (n v : Nat) : bitsToNat (msbBits n v) = v % 2 ^ n := by
  induction n with
  | zero => simp [msbBits, bitsToNat, Nat.mod_one]
  | succ n ih =>
    simp only [msbBits, bitsToNat, length_msbBits, ih]
    have ht : (v.testBit n).toNat = v / 2 ^ n % 2 := Nat.toNat_testBit v n
    have hm : v % 2 ^ (n + 1) = v % 2 ^ n + 2 ^ n * (v / 2 ^ n % 2) :=
      Nat.mod_pow_succ
    rw [ht, hm]
    ring

theorem msbBits_bitsToNat (l : List Bool) :
    msbBits l.length (bitsToNat l) = l := by
  induction l with
  | nil => rfl
  | cons b t ih =>
    have hr : bitsToNat t < 2 ^ t.length := bitsToNat_lt t
    simp only [List.length_cons, msbBits, bitsToNat]
    congr 1
    · have hdiv : (b.toNat * 2 ^ t.length + bitsToNat t) / 2 ^ t.length = b.toNat := by
        rw [Nat.add_comm, Nat.add_mul_div_right _ _ (Nat.two_pow_pos t.length),
          Nat.div_eq_of_lt hr]
        omega
      rw [Nat.testBit_to_div_mod, hdiv]
      cases b <;> simp
    · have hmod : (b.toNat * 2 ^ t.length + bitsToNat t) % 2 ^ t.length
          = bitsToNat t % 2 ^ t.length := by
        rw [Nat.mul_comm]
        exact Nat.mul_add_mod _ _ _
      calc msbBits t.length (b.toNat * 2 ^ t.length + bitsToNat t)
          = msbBits t.length (bitsToNat t) := msbBits_congr (by rw [hmod])
        _ = t := ih

theorem bytesToBits_aux (n : Nat) (l : List Bool) (h : n = (l.length + 7) / 8) :
    bytesToBits (bitsToBytesAux n l)
      = l ++ List.replicate ((8 - l.length % 8) % 8) false := by
  induction n generalizing l with
  | zero =>
    have hl : l.length = 0 := by omega
    have : l = [] := List.length_eq_zero.mp hl
    subst this
    simp [bitsToBytesAux, bytesToBits]
  | succ n ih =>
    have hlen : 1 ≤ l.length := by omega
    simp only [bitsToBytesAux, bytesToBits, List.map_cons, List.flatten_cons]
    have hchunk : ∀ (c : List Bool), c.length = 8 → msbBits 8 (bitsToNat c) = c := by
      intro c hc
      have := msbBits_bitsToNat c
      rwa [hc] at this
    by_cases h8 : 8 ≤ l.length
    · have htake : (l.take 8).length = 8 := by
        simp [List.length_take]; omega
      have hpad : 8 - (l.take 8).length = 0 := by omega
      rw [hpad]
      simp only [List.replicate, List.append_nil]
      rw [hchunk _ htake]
      have hdrop : (l.drop 8).length = l.length - 8 := List.length_drop 8 l
      have ihx := ih (l.drop 8) (by omega)
      simp only [bytesToBits] at ihx
      rw [ihx]
      have hmod : (l.drop 8).length % 8 = l.length % 8 := by omega
      rw [hmod, ← List.append_assoc, List.take_append_drop]
    · have hlt : l.length < 8 := by omega
      have htake : l.take 8 = l := List.take_of_length_le (by omega)
      have hdrop : l.drop 8 = [] := List.drop_eq_nil_of_le (by omega)
      have hn : n = 0 := by omega
      subst hn
      rw [htake, hdrop]
      have hlenpad : (l ++ List.replicate (8 - l.length) false).length = 8 := by
        simp [List.length_replicate]; omega
      rw [hchunk _ hlenpad]
      simp only [bitsToBytesAux, List.map_nil, List.flatten_nil, List.append_nil]
      have : (8 - l.length % 8) % 8 = 8 - l.length := by omega
      rw [this]

/-- Packing then unpacking restores the bit stream followed by the zero
padding of the final byte. -/
theorem bytesToBits_bitsToBytes (l : List Bool) :
    bytesToBits (bitsToBytes l)
      = l ++ List.replicate ((8 - l.length % 8) % 8) false :=
  bytesToBits_aux _ l rfl

theorem getElem?_mapIdx {α : Type} (g : Nat → α → α) (n : Nat) (l : List α)
    (i : Nat) : (mapIdx g n l)[i]? = (l[i]?).map (g (n + i)) := by
  induction l generalizing n i with
  | nil => simp [mapIdx]
  | cons x xs ih =>
    cases i with
    | zero => simp [mapIdx]
    | succ i =>
      simp only [mapIdx, List.getElem?_cons_succ, ih]
      have : n + (i + 1) = n + 1 + i := by omega
      rw [this]

/-! ### Bitwise helper lemmas -/

theorem and_ffff_eq_mod (a : Nat) : a &&& 0xFFFF = a % 65536 := by
  have h := Nat.and_pow_two_sub_one_eq_mod a 16
  norm_num at h
  exact h

theorem xor_mod_two_pow (a b n : Nat) :
    (a ^^^ b) % 2 ^ n = (a % 2 ^ n) ^^^ (b % 2 ^ n) := by
  apply Nat.eq_of_testBit_eq
  intro i
  simp only [Nat.testBit_mod_two_pow, Nat.testBit_xor]
  cases h : decide (i < n) <;> simp

theorem and_8000_mod (r : Nat) : (r % 65536) &&& 0x8000 = r &&& 0x8000 := by
  have h15 : (0x8000 : Nat) = 2 ^ 15 := by norm_num
  have e3 : (r % 65536).testBit 15 = r.testBit 15 := by
    have h16 : (65536 : Nat) = 2 ^ 16 := by norm_num
    rw [h16, Nat.testBit_mod_two_pow]
    simp
  rw [h15, Nat.and_two_pow, Nat.and_two_pow, e3]

theorem shl1_mod (r : Nat) : (r % 65536) <<< 1 % 65536 = r <<< 1 % 65536 := by
  rw [Nat.shiftLeft_eq, Nat.shiftLeft_eq, pow_one]
  omega

theorem xor_1021_mod (a b : Nat) (hab : a % 65536 = b % 65536) :
    (a ^^^ 0x1021) % 65536 = (b ^^^ 0x1021) % 65536 := by
  have h16 : (65536 : Nat) = 2 ^ 16 := by norm_num
  rw [h16] at hab ⊢
  rw [xor_mod_two_pow, xor_mod_two_pow, hab]

theorem crcB_step_mod (r : Nat) :
    catlitter.crcB_step (r % 65536) % 65536 = catlitter.crcB_step r % 65536 := by
  unfold catlitter.crcB_step
  rw [and_8000_mod]
  by_cases h : r &&& 0x8000 ≠ 0
  · simp only [if_pos h]
    exact xor_1021_mod _ _ (shl1_mod r)
  · simp only [if_neg h]
    exact shl1_mod r

theorem crcB_shift_mod (k : Nat) :
    ∀ r, crcB_shift_spec k (r % 65536) = catlitter.crcB_shift k r % 65536 := by
  induction k with
  | zero => intro r; rfl
  | succ k ih =>
    intro r
    show crcB_shift_spec k (crcB_step_spec (r % 65536))
      = catlitter.crcB_shift k (catlitter.crcB_step r) % 65536
    have hstep : crcB_step_spec (r % 65536)
        = catlitter.crcB_step r % 65536 := by
      show catlitter.crcB_step (r % 65536) &&& 0xFFFF = _
      rw [and_ffff_eq_mod, crcB_step_mod]
    rw [hstep, ih (catlitter.crcB_step r)]

theorem crc16Aux_eq (data : List Nat) :
    ∀ r, r < 65536 → catlitter.crc16Aux r data = crc16_ccittAux r data
      ∧ catlitter.crc16Aux r data < 65536 := by
  induction data with
  | nil => intro r hr; exact ⟨rfl, hr⟩
  | cons b rest ih =>
    intro r hr
    have harg : crcB_shift_spec 8 ((r ^^^ (b <<< 8)) &&& 0xFFFF)
        = catlitter.crcB_shift 8 (r ^^^ (b <<< 8)) &&& 0xFFFF := by
      rw [and_ffff_eq_mod, and_ffff_eq_mod, crcB_shift_mod]
    have hlt : catlitter.crcB_shift 8 (r ^^^ (b <<< 8)) &&& 0xFFFF < 65536 := by
      have hle : catlitter.crcB_shift 8 (r ^^^ (b <<< 8)) &&& 0xFFFF ≤ 0xFFFF :=
        Nat.and_le_right
      omega
    have ihx := ih _ hlt
    refine ⟨?_, ihx.2⟩
    show catlitter.crc16Aux (catlitter.crcB_shift 8 (r ^^^ (b <<< 8)) &&& 0xFFFF) rest
      = crc16_ccittAux (crcB_shift_spec 8 ((r ^^^ (b <<< 8)) &&& 0xFFFF)) rest
    rw [ihx.1, harg]

/-! ### Serialization support lemmas -/

theorem rawBits_ok : ∀ fs : List Commands.Field,
    (∀ f ∈ fs, f.value < 2 ^ f.size) →
    Commands.rawBits fs = .ok (fieldStream fs) := by
  intro fs
  induction fs with
  | nil => intro _; rfl
  | cons f fs ih =>
    intro h
    have hf : f.value < 2 ^ f.size := h f (by simp)
    have ihx := ih (fun g hg => h g (by simp [hg]))
    simp [Commands.rawBits, Commands.Field.get_raw, hf, ihx, fieldStream]

theorem length_fieldStream (fs : List Commands.Field) :
    (fieldStream fs).length = sizeBits fs := by
  induction fs with
  | nil => rfl
  | cons f fs ih =>
    simp [fieldStream, sizeBits, length_msbBits, ih, List.map_cons, List.sum_cons]

theorem sliceFields_full (fs : List Commands.Field) :
    Commands.sliceFields fs 0 fs.length = fs := by
  simp only [Commands.sliceFields, List.drop_zero]
  exact List.take_of_length_le (by omega)

/-- Command.get_raw with the default end index serializes every field. -/
theorem get_raw_none (c : Commands.Command) (h1 : c.fields ≠ [])
    (hfit : ∀ f ∈ c.fields, f.value < 2 ^ f.size) :
    c.get_raw 0 none = .ok (bitsToBytes (fieldStream c.fields)) := by
  have hlen : ¬ c.fields.length = 0 := by
    simpa [List.length_eq_zero] using h1
  have hraw := rawBits_ok c.fields hfit
  have hempty : ¬ c.fields.isEmpty = true := by
    simp [List.isEmpty_iff, h1]
  simp only [Commands.Command.get_raw, if_neg hlen, sliceFields_full, hraw,
    if_neg hempty]

/-- Command.get_raw over an explicit nonzero end index serializes the
inclusive slice. -/
theorem get_raw_some (c : Commands.Command) (s e : Nat) (h1 : c.fields ≠ [])
    (he0 : e ≠ 0) (hs : s ≤ e) (he : e < c.fields.length)
    (hfit : ∀ f ∈ Commands.sliceFields c.fields s e, f.value < 2 ^ f.size) :
    c.get_raw s (some e)
      = .ok (bitsToBytes (fieldStream (Commands.sliceFields c.fields s e))) := by
  have hlen : ¬ c.fields.length = 0 := by
    simpa [List.length_eq_zero] using h1
  have hraw := rawBits_ok _ hfit
  have hslicelen : (Commands.sliceFields c.fields s e).length ≠ 0 := by
    simp only [Commands.sliceFields, List.length_take, List.length_drop]
    omega
  have hempty : ¬ (Commands.sliceFields c.fields s e).isEmpty = true := by
    simp only [List.isEmpty_iff]
    intro hx
    exact hslicelen (by rw [hx]; rfl)
  simp only [Commands.Command.get_raw, if_neg hlen, if_neg he0, hraw,
    if_neg hempty]

theorem deserializeGo_roundtrip : ∀ (fs : List Commands.Field) (extra : List Bool),
    (∀ f ∈ fs, f.value < 2 ^ f.size) →
    (∀ f ∈ fs, set_spec f f.value = .ok f) →
    deserializeGo fs (fieldStream fs ++ extra) = .ok fs := by
  intro fs
  induction fs with
  | nil => intro extra _ _; rfl
  | cons f fs ih =>
    intro extra hfit hset
    have hf : f.value < 2 ^ f.size := hfit f (by simp)
    have hlen : (msbBits f.size f.value).length = f.size := length_msbBits _ _
    simp only [fieldStream, List.append_assoc, deserializeGo]
    rw [List.take_left' hlen, List.drop_left' hlen]
    rw [bitsToNat_msbBits, Nat.mod_eq_of_lt hf]
    rw [hset f (by simp)]
    rw [ih extra (fun g hg => hfit g (by simp [hg])) (fun g hg => hset g (by simp [hg]))]

/-! ### Claim C1: bit-exact serialization -/

/-- C1 (corrected): for every non-empty command whose selected field
values fit their declared widths, and every inclusive index range whose
end index is at least 1, serialize concatenates the size-bit msb-first
unsigned representations of the selected fields in positional order into
one bit stream and packs that stream into bytes msb-first across field
boundaries, zero-padding the low bits of the final byte.  The claim as
frozen also covers end_index = 0, where the source instead serializes
through the last field, because if not end_index: treats 0 like None; see
the counterexample. -/
theorem c1_serialize_packs (c : Commands.Command) (s e : Nat)
    (h1 : c.fields ≠ []) (he0 : 1 ≤ e) (hs : s ≤ e) (he : e < c.fields.length)
    (hfit : ∀ f ∈ Commands.sliceFields c.fields s e, f.value < 2 ^ f.size) :
    c.get_raw s (some e)
      = .ok (bitsToBytes (fieldStream (Commands.sliceFields c.fields s e))) ∧
    bytesToBits (bitsToBytes (fieldStream (Commands.sliceFields c.fields s e)))
      = fieldStream (Commands.sliceFields c.fields s e)
        ++ List.replicate ((8 - sizeBits (Commands.sliceFields c.fields s e) % 8) % 8) false := by
  refine ⟨get_raw_some c s e h1 (by omega) hs he hfit, ?_⟩
  rw [bytesToBits_bitsToBytes, length_fieldStream]

/-- C1 witness: the packing theorem applied to the CMD_BOARD_INFO
fixture over the range [1, 4]. -/
theorem c1_witness :
    Commands.Command.get_raw cmdBoard 1 (some 4)
      = .ok (bitsToBytes (fieldStream (Commands.sliceFields cmdBoard.fields 1 4))) :=
  (c1_serialize_packs cmdBoard 1 4 (by decide) (by decide) (by decide) (by decide)
    (by decide)).1

/-- C1 counterexample: on a two-field command the range [0, 0] should
select only the first field, but the source returns the serialization of
both fields, so the claim fails at end_index = 0. -/
theorem c1_counterexample :
    Commands.Command.get_raw cmdTwo 0 (some 0) = .ok [1, 2] ∧
    bitsToBytes (fieldStream (Commands.sliceFields cmdTwo.fields 0 0)) = [1] := by
  constructor
  · decide
  · decide

/-! ### Claim C4: serialize-deserialize round trip -/

/-- C4 (confirmed, deserializer modelled from the spec): for every
command template with at least one field, every assignment of values that
fit their widths and satisfy the declared constraints round-trips: the
byte sequence produced by serialize, deserialized against the same
template, reproduces every field exactly. -/
theorem c4_roundtrip (c : Commands.Command) (h1 : c.fields ≠ [])
    (hfit : ∀ f ∈ c.fields, f.value < 2 ^ f.size)
    (hset : ∀ f ∈ c.fields, set_spec f f.value = .ok f) :
    c.get_raw 0 none = .ok (bitsToBytes (fieldStream c.fields)) ∧
    deserialize c.fields (bitsToBytes (fieldStream c.fields)) = .ok c.fields := by
  refine ⟨get_raw_none c h1 hfit, ?_⟩
  have hbb := bytesToBits_bitsToBytes (fieldStream c.fields)
  have hlen : (bytesToBits (bitsToBytes (fieldStream c.fields))).length
      = sizeBits c.fields + (8 - sizeBits c.fields % 8) % 8 := by
    rw [hbb, List.length_append, length_fieldStream, List.length_replicate]
  simp only [deserialize]
  rw [if_neg (by omega)]
  rw [hbb]
  exact deserializeGo_roundtrip c.fields _ hfit hset

/-- C4 witness: the round trip at the CMD_BOARD_INFO fixture. -/
theorem c4_witness :
    Commands.Command.get_raw cmdBoard 0 none
      = .ok (bitsToBytes (fieldStream cmdBoard.fields)) ∧
    deserialize cmdBoard.fields (bitsToBytes (fieldStream cmdBoard.fields))
      = .ok cmdBoard.fields :=
  c4_roundtrip cmdBoard (by decide) (by decide) (by decide)

/-! ### Claim C5: variant-B CRC-16 -/

/-- Grounding check for the embedding of Command.crc16: the CRC of the
bytes of the digit string 123456789 is the published CCITT-FALSE check
value 0x29B1. -/
theorem crc16_check_value :
    catlitter.crc16 [0x31, 0x32, 0x33, 0x34, 0x35, 0x36, 0x37, 0x38, 0x39] = 0x29B1 := by
  decide

/-- C5 (confirmed): for every byte sequence, the variant-B checksum of
src/catlitter/CommandLoader.py equals the CCITT-style CRC-16 exactly as
the claim describes it (register initialized to 0xFFFF, each byte XOR-ed
into the high byte, eight shift-left iterations with 0x1021 XOR-ed in
when the top bit was set, masked to 16 bits), and the result is a 16-bit
integer. -/
theorem c5_variantB_ccitt (data : List Nat) :
    catlitter.crc16 data = crc16_ccitt_spec data ∧ catlitter.crc16 data < 65536 :=
  crc16Aux_eq data 0xFFFF (by norm_num)

/-! ### Claim C3: allowed-values enforcement -/

/-- C3 (code bug): on the 13-bit field with allowed values
[0x56, 0, 1, 3, 4], set_val 2 does not fail: the membership assertion is
swallowed by the bare except around it, and the out-of-set value 2 is
stored, where the claim and the assertion text itself require a
constraint failure that retains 0x56.  set_val 1 succeeds as claimed. -/
theorem c3_load_not_enforced :
    Commands.Field.set_val exampleField 2 = .ok { exampleField with value := 2 } ∧
    Commands.Field.set_val exampleField 1 = .ok { exampleField with value := 1 } := by
  constructor
  · decide
  · decide

/-! ### Claim C8: min and max bounds -/

/-- C8 counterexample: a field whose max bound is 0 accepts 7 in
src/Commands.py because if self.max: is falsy at 0, and the catlitter
set_load stores 9 against bounds [1, 5] because its range check falls
through to an unconditional assignment; the claim requires both calls to
fail with the previous value retained. -/
theorem c8_counterexample :
    Commands.Field.set_val maxZeroField 7 = .ok { maxZeroField with value := 7 } ∧
    catlitter.set_load boundedField 9 = { boundedField with value := 9 } := by
  constructor
  · decide
  · decide

/-- C8 (corrected): in src/Commands.py, set_val succeeds exactly when
every truthy bound is respected: a min or max that is None or 0 is not
enforced, a nonzero bound is enforced by an assertion that propagates
before any mutation, so on failure the previous value is retained; in
src/catlitter/CommandLoader.py, set_load never fails and always stores
the value, whatever the bounds say. -/
theorem c8_bounds (f : Commands.Field) (x : Nat) :
    (Commands.Field.set_val f x = .ok { f with value := x } ↔
      (f.min.getD 0 = 0 ∨ f.min.getD 0 ≤ x) ∧ (f.max.getD 0 = 0 ∨ x ≤ f.max.getD 0)) ∧
    (¬ ((f.min.getD 0 = 0 ∨ f.min.getD 0 ≤ x) ∧ (f.max.getD 0 = 0 ∨ x ≤ f.max.getD 0)) →
      ∃ m, Commands.Field.set_val f x = .error m) ∧
    (∀ g : catlitter.Field, catlitter.set_load g x = { g with value := x }) := by
  refine ⟨?_, ?_, fun g => rfl⟩
  · unfold Commands.Field.set_val
    constructor
    · intro h
      by_cases h1 : f.min.getD 0 ≠ 0 ∧ x < f.min.getD 0
      · rw [if_pos h1] at h
        exact absurd h (by simp)
      · by_cases h2 : f.max.getD 0 ≠ 0 ∧ f.max.getD 0 < x
        · rw [if_neg h1, if_pos h2] at h
          exact absurd h (by simp)
        · constructor <;> omega
    · intro h
      have h1 : ¬ (f.min.getD 0 ≠ 0 ∧ x < f.min.getD 0) := by omega
      have h2 : ¬ (f.max.getD 0 ≠ 0 ∧ f.max.getD 0 < x) := by omega
      rw [if_neg h1, if_neg h2]
  · intro h
    unfold Commands.Field.set_val
    by_cases h1 : f.min.getD 0 ≠ 0 ∧ x < f.min.getD 0
    · exact ⟨_, by rw [if_pos h1]⟩
    · have h2 : f.max.getD 0 ≠ 0 ∧ f.max.getD 0 < x := by omega
      exact ⟨_, by rw [if_neg h1, if_pos h2]⟩

/-- C8 witness: the corrected bounds behaviour at concrete inputs: a
field with bounds [2, 5] accepts 3 and rejects 9, and the catlitter
set_load on the bounded fixture stores 4. -/
theorem c8_witness :
    Commands.Field.set_val { name := "W", value := 2, min := some 2, max := some 5 } 3
      = .ok { name := "W", value := 3, min := some 2, max := some 5 } ∧
    (∃ m, Commands.Field.set_val { name := "W", value := 2, min := some 2, max := some 5 } 9
      = .error m) ∧
    catlitter.set_load boundedField 4 = { boundedField with value := 4 } := by
  refine ⟨?_, ?_, ?_⟩
  · exact (c8_bounds { name := "W", value := 2, min := some 2, max := some 5 } 3).1.mpr
      (by decide)
  · exact (c8_bounds { name := "W", value := 2, min := some 2, max := some 5 } 9).2.1
      (by decide)
  · exact (c8_bounds { name := "W", value := 2, min := some 2, max := some 5 } 4).2.2
      boundedField

/-! ### Claim C9: field lookup -/

theorem find?_of_findIdx? {α : Type} (p : α → Bool) :
    ∀ (l : List α) (j : Nat) (f : α), l.findIdx? p = some j → l[j]? = some f →
      l.find? p = some f := by
  intro l
  induction l with
  | nil =>
    intro j f h _
    simp [List.findIdx?] at h
  | cons x xs ih =>
    intro j f h hg
    rw [List.findIdx?_cons] at h
    by_cases hp : p x = true
    · rw [if_pos hp] at h
      have hj : j = 0 := by
        injection h with h2
        omega
      subst hj
      simp only [List.getElem?_cons_zero, Option.some.injEq] at hg
      subst hg
      simp [List.find?_cons, hp]
    · rw [if_neg hp, List.findIdx?_succ] at h
      cases hx : xs.findIdx? p with
      | none =>
        rw [hx] at h
        simp at h
      | some j0 =>
        rw [hx] at h
        simp only [Option.map_some'] at h
        injection h with h2
        subst h2
        simp only [List.getElem?_cons_succ] at hg
        have hres := ih j0 f hx hg
        simp [List.find?_cons, hp, hres]

theorem find?_none_of_findIdx?_none {α : Type} (p : α → Bool) (l : List α)
    (h : l.findIdx? p = none) : l.find? p = none := by
  rw [List.findIdx?_eq_none_iff] at h
  rw [List.find?_eq_none]
  intro x hx
  simp [h x hx]

/-- C9 (corrected): by-name lookup returns the first field in positional
order whose name matches and fails when nothing matches; by-index lookup
returns the field exactly for indices in [1, len) and fails with KeyError
beyond the length; but, against the claim, index 0 is treated as absent
(Python truthiness of if index:) and falls through to the name branch
instead of returning the field at position 0.  The catlitter getitem
likewise returns the first positional name match and fails otherwise. -/
theorem c9_lookup :
    (∀ (c : Commands.Command) (i : Nat), 1 ≤ i →
      (∀ f, c.fields[i]? = some f → c.get_field none (some i) = .ok f) ∧
      (c.fields.length ≤ i → c.get_field none (some i) = .error "KeyError")) ∧
    (∀ (c : Commands.Command) (nm : String) (j : Nat) (f : Commands.Field), nm ≠ "" →
      c.fields.findIdx? (fun g => g.name == nm) = some j → c.fields[j]? = some f →
      c.get_field (some nm) none = .ok f) ∧
    (∀ (c : Commands.Command) (nm : String), nm ≠ "" →
      c.fields.findIdx? (fun g => g.name == nm) = none →
      c.get_field (some nm) none = .error "None") ∧
    (∀ (c : catlitter.Command) (nm : String) (j : Nat) (f : catlitter.Field),
      c.fields.findIdx? (fun g => g.name == nm) = some j → c.fields[j]? = some f →
      catlitter.getitem c nm = .ok f) := by
  refine ⟨?_, ?_, ?_, ?_⟩
  · intro c i hi
    constructor
    · intro f hf
      simp only [Commands.Command.get_field, if_pos (by omega : i ≠ 0), hf]
    · intro hlen
      have : c.fields[i]? = none := by
        rw [List.getElem?_eq_none hlen]
      simp only [Commands.Command.get_field, if_pos (by omega : i ≠ 0), this]
  · intro c nm j f hnm hidx hget
    have hfind := find?_of_findIdx? _ c.fields j f hidx hget
    simp only [Commands.Command.get_field, Commands.get_field_by_name,
      if_pos hnm, hfind]
  · intro c nm hnm hidx
    have hfind := find?_none_of_findIdx?_none _ c.fields hidx
    simp only [Commands.Command.get_field, Commands.get_field_by_name,
      if_pos hnm, hfind]
  · intro c nm j f hidx hget
    have hfind := find?_of_findIdx? _ c.fields j f hidx hget
    simp only [catlitter.getitem, hfind]

/-- C9 witness: index 1 and name A resolve on the two-field fixture. -/
theorem c9_witness :
    Commands.Command.get_field cmdTwo none (some 1)
      = .ok { name := "B", value := 2, size := 8 } ∧
    Commands.Command.get_field cmdTwo (some "A") none
      = .ok { name := "A", value := 1, size := 8 } :=
  ⟨(c9_lookup.1 cmdTwo 1 (by decide)).1 _ (by decide),
   c9_lookup.2.1 cmdTwo "A" 0 _ (by decide) (by decide) (by decide)⟩

/-- C9 counterexample: index 0 lies in [0, len) on the one-field fixture,
yet get_field with index 0 fails instead of returning the field at
position 0. -/
theorem c9_counterexample :
    Commands.Command.get_field cmdOne none (some 0) = .error "None" ∧
    cmdOne.fields[0]? = some { name := "A", value := 1, size := 8 } := by
  constructor
  · decide
  · decide

/-! ### Claim C6: byte-alignment enforcement -/

theorem beBytes_zero (n : Nat) : catlitter.beBytes n 0 = List.replicate n 0 := by
  induction n with
  | zero => rfl
  | succ n ih => simp [catlitter.beBytes, ih, List.replicate]

theorem fieldBytes_noload (f : catlitter.Field) (hl : f.load = none)
    (hs : f.size ≠ -1) :
    catlitter.fieldBytes f = .ok (List.replicate ((f.size + 7) / 8).toNat 0) := by
  have hz : catlitter.zeroIfNoLoad f = { f with value := 0 } := by
    simp [catlitter.zeroIfNoLoad, hl]
  simp [catlitter.fieldBytes, hs, hz, catlitter.natToBytes, Nat.pos_pow_of_pos,
    beBytes_zero]

theorem rawBytes_ok : ∀ fs : List catlitter.Field,
    (∀ f ∈ fs, f.size ≠ -1 ∧
      (catlitter.zeroIfNoLoad f).value < 256 ^ ((f.size + 7) / 8).toNat) →
    ∃ bs, catlitter.rawBytes fs = .ok bs := by
  intro fs
  induction fs with
  | nil => intro _; exact ⟨[], rfl⟩
  | cons f fs ih =>
    intro h
    obtain ⟨h1, h2⟩ := h f (by simp)
    obtain ⟨bs, hbs⟩ := ih (fun g hg => h g (by simp [hg]))
    refine ⟨catlitter.beBytes ((f.size + 7) / 8).toNat (catlitter.zeroIfNoLoad f).value
      ++ bs, ?_⟩
    simp [catlitter.rawBytes, catlitter.fieldBytes, h1, catlitter.natToBytes, h2, hbs]

/-- C6 (corrected): variant A does always fail on an unaligned range,
before any checksum work, with the alignment assertion; variant B never
checks alignment: whenever the indices are valid, no selected field has
the sentinel size -1, and every selected value fits its padded byte
width, calculate_checksum succeeds whether or not the summed bit width of
the range is a multiple of 8, because each field is padded separately to
whole bytes. -/
theorem c6_alignment :
    (∀ (c : Commands.Command) (s e t : Nat),
      sizeBits (Commands.sliceFields c.fields s e) % 8 ≠ 0 →
      c.crc16_calculate s e t = .error "CRC only works for full bytes here.") ∧
    (∀ (c : catlitter.Command) (s e t : Nat), e < c.fields.length →
      t < c.fields.length →
      (∀ f ∈ catlitter.sliceFields c.fields s e, f.size ≠ -1 ∧
        (catlitter.zeroIfNoLoad f).value < 256 ^ ((f.size + 7) / 8).toNat) →
      ∃ c2, catlitter.calculate_checksum c s e t = .ok c2) := by
  constructor
  · intro c s e t h
    simp only [sizeBits] at h
    simp only [Commands.Command.crc16_calculate, if_pos h]
  · intro c s e t he ht hall
    simp only [catlitter.calculate_checksum, if_neg (by omega :
      ¬ (c.fields.length ≤ e ∨ c.fields.length ≤ t))]
    obtain ⟨bs, hbs⟩ := rawBytes_ok _ hall
    rw [hbs]
    exact ⟨_, rfl⟩

/-- C6 witness: the alignment assertion fires on the 13-bit Commands
fixture, and the catlitter builder-shaped fixture computes a checksum
without any alignment check. -/
theorem c6_witness :
    Commands.Command.crc16_calculate cmdThirteen 0 0 1
      = .error "CRC only works for full bytes here." ∧
    ∃ c2, catlitter.calculate_checksum cmdChain 0 0 1 = .ok c2 :=
  ⟨c6_alignment.1 cmdThirteen 0 0 1 (by decide),
   c6_alignment.2 cmdChain 0 0 1 (by decide) (by decide) (by decide)⟩

/-- C6 counterexample: the catlitter checksum over the 13-bit range
[0, 0] succeeds, where the claim demands an UnalignedChecksumRange
failure for every variant. -/
theorem c6_counterexample :
    (catlitter.sliceFields cmdUnaligned.fields 0 0).map catlitter.Field.size = [13] ∧
    (catlitter.calculate_checksum cmdUnaligned 0 0 1).isOk = true := by
  constructor
  · decide
  · decide

/-! ### Inversion helpers for the mutating operations -/

theorem set_val_ok_shape (f : Commands.Field) (v : Nat) (f2 : Commands.Field)
    (h : f.set_val v = .ok f2) : f2 = { f with value := v } := by
  unfold Commands.Field.set_val at h
  by_cases h1 : f.min.getD 0 ≠ 0 ∧ v < f.min.getD 0
  · rw [if_pos h1] at h
    cases h
  · rw [if_neg h1] at h
    by_cases h2 : f.max.getD 0 ≠ 0 ∧ f.max.getD 0 < v
    · rw [if_pos h2] at h
      cases h
    · rw [if_neg h2] at h
      injection h with h3
      exact h3.symm

theorem update_ok_fields (c c2 : catlitter.Command)
    (h : catlitter.update c = .ok c2) :
    c2.fields = c.fields.map catlitter.zeroIfNoLoad := by
  unfold catlitter.update at h
  cases hx : catlitter.rawBytes c.fields with
  | error m =>
    rw [hx] at h
    cases h
  | ok bs =>
    rw [hx] at h
    injection h with h2
    rw [← h2]

theorem calculate_checksum_inv (c : catlitter.Command) (s e t : Nat)
    (c2 : catlitter.Command)
    (h : catlitter.calculate_checksum c s e t = .ok c2) :
    e < c.fields.length ∧ t < c.fields.length ∧
    ∃ bytes, catlitter.rawBytes (catlitter.sliceFields c.fields s e) = .ok bytes ∧
      c2.fields = mapIdx
        (fun i f => if i = t then catlitter.set_load f (catlitter.crc16 bytes) else f) 0
        (mapIdx (fun i f => if s ≤ i ∧ i ≤ e then catlitter.zeroIfNoLoad f else f) 0
          c.fields) := by
  unfold catlitter.calculate_checksum at h
  by_cases hg : c.fields.length ≤ e ∨ c.fields.length ≤ t
  · rw [if_pos hg] at h
    cases h
  · rw [if_neg hg] at h
    refine ⟨by omega, by omega, ?_⟩
    cases hb : catlitter.rawBytes (catlitter.sliceFields c.fields s e) with
    | error m =>
      rw [hb] at h
      cases h
    | ok bytes =>
      rw [hb] at h
      simp only [] at h
      injection h with h2
      exact ⟨bytes, rfl, by rw [← h2]⟩

theorem crc16_calculate_inv (c : Commands.Command) (s e t : Nat)
    (c2 : Commands.Command)
    (h : c.crc16_calculate s e t = .ok c2) :
    ∃ (data : List Nat) (tf fj : Commands.Field) (j : Nat),
      c.get_raw s (some e) = .ok data ∧
      c.fields[t]? = some tf ∧
      c.fields.findIdx? (fun g => g.name == tf.name) = some j ∧
      c.fields[j]? = some fj ∧
      c2.fields = c.fields.set j
        { fj with value := Commands.swapBytes (Commands.crc16_register
            (data.take (sizeBits (Commands.sliceFields c.fields s e) / 8))) } := by
  unfold Commands.Command.crc16_calculate at h
  by_cases halign :
      ((Commands.sliceFields c.fields s e).map Commands.Field.size).sum % 8 ≠ 0
  · rw [if_pos halign] at h
    cases h
  · rw [if_neg halign] at h
    cases hdata : c.get_raw s (some e) with
    | error m =>
      rw [hdata] at h
      simp only [] at h
      cases h
    | ok data =>
      rw [hdata] at h
      simp only [] at h
      by_cases hlen : data.length <
          ((Commands.sliceFields c.fields s e).map Commands.Field.size).sum / 8
      · rw [if_pos hlen] at h
        cases h
      · rw [if_neg hlen] at h
        cases htf : c.fields[t]? with
        | none =>
          rw [htf] at h
          simp only [] at h
          cases h
        | some tf =>
          rw [htf] at h
          simp only [] at h
          unfold Commands.Command.set_field at h
          cases hidx : c.fields.findIdx? (fun g => g.name == tf.name) with
          | none =>
            rw [hidx] at h
            simp only [] at h
            cases h
          | some j =>
            rw [hidx] at h
            simp only [] at h
            cases hj : c.fields[j]? with
            | none =>
              rw [hj] at h
              simp only [] at h
              cases h
            | some fj =>
              rw [hj] at h
              simp only [] at h
              cases hsv : fj.set_val (Commands.swapBytes (Commands.crc16_register
                  (data.take (((Commands.sliceFields c.fields s e).map
                    Commands.Field.size).sum / 8)))) with
              | error m =>
                rw [hsv] at h
                simp only [] at h
                cases h
              | ok f2 =>
                rw [hsv] at h
                simp only [] at h
                injection h with h2
                have hshape := set_val_ok_shape _ _ _ hsv
                refine ⟨data, tf, fj, j, rfl, rfl, hidx, hj, ?_⟩
                rw [← h2, hshape]
                rfl

/-! ### Claim C10: zeroing of load-less fields in the catlitter variant -/

/-- C10 (confirmed): every serialization pass of the catlitter variant
(update, hence also add_field and get_raw, which call it) sets value = 0
on each field whose load attribute is None; set_parameter runs update, so
a value stored into a load-less field is zero again as soon as the call
returns; every checksum pass zeroes the load-less fields of its range
(shown away from the target, which receives the checksum afterwards);
and the bytes a load-less field contributes to any serialized output are
all zero. -/
theorem c10_zeroing :
    (∀ (c c2 : catlitter.Command), catlitter.update c = .ok c2 →
      ∀ (k : Nat) (f : catlitter.Field), c.fields[k]? = some f → f.load = none →
        c2.fields[k]? = some { f with value := 0 }) ∧
    (∀ (c : catlitter.Command) (nm : String) (v : Nat) (c2 : catlitter.Command),
      catlitter.set_parameter c nm v = .ok c2 →
      ∀ (k : Nat) (f : catlitter.Field), c.fields[k]? = some f → f.load = none →
        c2.fields[k]? = some { f with value := 0 }) ∧
    (∀ (c : catlitter.Command) (s e t : Nat) (c2 : catlitter.Command),
      catlitter.calculate_checksum c s e t = .ok c2 →
      ∀ (k : Nat) (f : catlitter.Field), s ≤ k → k ≤ e → k ≠ t →
        c.fields[k]? = some f → f.load = none →
        c2.fields[k]? = some { f with value := 0 }) ∧
    (∀ f : catlitter.Field, f.load = none → f.size ≠ -1 →
      catlitter.fieldBytes f = .ok (List.replicate ((f.size + 7) / 8).toNat 0)) := by
  refine ⟨?_, ?_, ?_, fun f hl hs => fieldBytes_noload f hl hs⟩
  · intro c c2 h k f hget hl
    rw [update_ok_fields c c2 h, List.getElem?_map, hget]
    simp [catlitter.zeroIfNoLoad, hl]
  · intro c nm v c2 h k f hget hl
    unfold catlitter.set_parameter at h
    cases hidx : c.fields.findIdx? (fun g => g.name == nm) with
    | none =>
      rw [hidx] at h
      simp only [] at h
      cases h
    | some j =>
      rw [hidx] at h
      simp only [] at h
      cases hj : c.fields[j]? with
      | none =>
        rw [hj] at h
        simp only [] at h
        cases h
      | some fj =>
        rw [hj] at h
        simp only [] at h
        have hfields := update_ok_fields _ _ h
        by_cases hkj : k = j
        · subst hkj
          have hfj : f = fj := by
            rw [hget] at hj
            injection hj with hx
          subst hfj
          have hklen : k < c.fields.length := by
            by_contra hx
            rw [List.getElem?_eq_none (by omega)] at hget
            cases hget
          rw [hfields]
          simp only [List.getElem?_map]
          rw [List.getElem?_set_self (by simpa using hklen)]
          simp [catlitter.set_load, catlitter.zeroIfNoLoad, hl]
        · rw [hfields]
          simp only [List.getElem?_map]
          rw [List.getElem?_set_ne (by omega)]
          rw [hget]
          simp [catlitter.zeroIfNoLoad, hl]
  · intro c s e t c2 h k f hs he hkt hget hl
    obtain ⟨he2, ht2, bytes, hb, hfields⟩ := calculate_checksum_inv c s e t c2 h
    have hin : s ≤ k ∧ k ≤ e := ⟨hs, he⟩
    rw [hfields]
    rw [getElem?_mapIdx, getElem?_mapIdx]
    simp only [Nat.zero_add, hget, Option.map_some']
    rw [if_neg hkt, if_pos hin]
    simp [catlitter.zeroIfNoLoad, hl]

/-- C10 witness: updating the command that holds a stale checksum in its
load-less field H zeroes that field. -/
theorem c10_witness :
    (⟨cmdStale.fields.map catlitter.zeroIfNoLoad, some [0x24, 0, 0, 0, 0]⟩ :
        catlitter.Command).fields[1]?
      = some { name := "H", load := none, size := 16, value := 0 } :=
  c10_zeroing.1 cmdStale
    ⟨cmdStale.fields.map catlitter.zeroIfNoLoad, some [0x24, 0, 0, 0, 0]⟩
    (by decide) 1 { name := "H", load := none, size := 16, value := 34070 }
    (by decide) (by decide)

/-! ### Claim C7: frame of a checksum computation -/

/-- C7 (corrected): in src/Commands.py, a successful crc16_calculate
whose target name first occurs at the target index writes exactly the
target field, leaving every other field untouched; in the catlitter
variant the claim fails, because calculate_checksum also zeroes every
load-less field of the checksummed range: there, a successful call
leaves exactly the fields outside the range (and the range fields that
carry a load) untouched, zeroes the load-less range fields, and stores
the checksum at the target. -/
theorem c7_frame :
    (∀ (c : Commands.Command) (s e t : Nat) (c2 : Commands.Command)
      (tf : Commands.Field), c.fields[t]? = some tf →
      c.fields.findIdx? (fun g => g.name == tf.name) = some t →
      c.crc16_calculate s e t = .ok c2 →
      (∀ k, k ≠ t → c2.fields[k]? = c.fields[k]?) ∧
      (∃ v, c2.fields[t]? = some { tf with value := v })) ∧
    (∀ (c : catlitter.Command) (s e t : Nat) (c2 : catlitter.Command),
      catlitter.calculate_checksum c s e t = .ok c2 →
      (∀ k, k ≠ t → ¬ (s ≤ k ∧ k ≤ e) → c2.fields[k]? = c.fields[k]?) ∧
      (∀ k f, k ≠ t → s ≤ k → k ≤ e → c.fields[k]? = some f → f.load ≠ none →
        c2.fields[k]? = some f) ∧
      (∀ k f, k ≠ t → s ≤ k → k ≤ e → c.fields[k]? = some f → f.load = none →
        c2.fields[k]? = some { f with value := 0 }) ∧
      (∃ g, c2.fields[t]? = some g)) := by
  constructor
  · intro c s e t c2 tf hget hfirst h
    obtain ⟨data, tf2, fj, j, _, htf2, hidx2, hj2, hfields⟩ :=
      crc16_calculate_inv c s e t c2 h
    have htfeq : tf = tf2 := by
      rw [hget] at htf2
      injection htf2 with hx
    subst htfeq
    have hjt : t = j := by
      rw [hfirst] at hidx2
      injection hidx2 with hx
    subst hjt
    have hfj : tf = fj := by
      rw [hget] at hj2
      injection hj2 with hx
    subst hfj
    have htlen : t < c.fields.length := by
      by_contra hx
      rw [List.getElem?_eq_none (by omega)] at hget
      cases hget
    constructor
    · intro k hk
      rw [hfields]
      exact List.getElem?_set_ne (by omega)
    · refine ⟨Commands.swapBytes (Commands.crc16_register
        (data.take (sizeBits (Commands.sliceFields c.fields s e) / 8))), ?_⟩
      rw [hfields]
      exact List.getElem?_set_self htlen
  · intro c s e t c2 h
    obtain ⟨he2, ht2, bytes, hb, hfields⟩ := calculate_checksum_inv c s e t c2 h
    refine ⟨?_, ?_, ?_, ?_⟩
    · intro k hkt hrange
      rw [hfields, getElem?_mapIdx, getElem?_mapIdx]
      simp only [Nat.zero_add]
      cases hget : c.fields[k]? with
      | none => rfl
      | some f =>
        simp only [Option.map_some']
        rw [if_neg hkt, if_neg hrange]
    · intro k f hkt hs he hget hl
      have hin : s ≤ k ∧ k ≤ e := ⟨hs, he⟩
      rw [hfields, getElem?_mapIdx, getElem?_mapIdx]
      simp only [Nat.zero_add, hget, Option.map_some']
      rw [if_neg hkt, if_pos hin]
      simp [catlitter.zeroIfNoLoad, Option.isNone_iff_eq_none, hl]
    · intro k f hkt hs he hget hl
      have hin : s ≤ k ∧ k ≤ e := ⟨hs, he⟩
      rw [hfields, getElem?_mapIdx, getElem?_mapIdx]
      simp only [Nat.zero_add, hget, Option.map_some']
      rw [if_neg hkt, if_pos hin]
      simp [catlitter.zeroIfNoLoad, hl]
    · rw [hfields, getElem?_mapIdx, getElem?_mapIdx]
      rw [List.getElem?_eq_getElem ht2]
      simp only [Nat.zero_add, Option.map_some']
      exact ⟨_, rfl⟩

/-- C7 witness: the Commands frame property at the CMD_BOARD_INFO
fixture: computing the checksum over [1, 4] into index 5 leaves the
PAYLOAD_SIZE field at index 2 untouched. -/
theorem c7_witness :
    (⟨cmdBoard.fields.set 5 { name := "CRC", value := 58899, size := 16 }⟩ :
        Commands.Command).fields[2]? = cmdBoard.fields[2]? :=
  (c7_frame.1 cmdBoard 1 4 5
    ⟨cmdBoard.fields.set 5 { name := "CRC", value := 58899, size := 16 }⟩
    { name := "CRC", value := 0, size := 16 }
    (by decide) (by decide) (by decide)).1 2 (by decide)

/-- C7 counterexample: two successive catlitter checksum calls; the
second call, with target index 2, changes the field at index 1 from
34070 to 0, so a field other than the target is mutated, against the
claim. -/
theorem c7_counterexample :
    (catlitter.calculate_checksum cmdChain 0 0 1).map
        (fun c => c.fields.map catlitter.Field.value) = .ok [0x24, 34070, 0] ∧
    (34070 : Nat) ≠ 0 ∧
    ((catlitter.calculate_checksum cmdChain 0 0 1).bind
        (fun c => catlitter.calculate_checksum c 0 1 2)).map
        (fun c => c.fields.map catlitter.Field.value) = .ok [0x24, 0, 38554] := by
  refine ⟨by decide, by decide, by decide⟩

/-! ### Claim C2: variant-A checksum -/

/-- C2 (corrected): for a successful variant-A computation whose target
name first occurs at the target index, the stored 16-bit value is the
register-form CRC of the serialized range bytes with its two bytes
swapped (int.from_bytes of [low, high] read big-endian), not the register
itself as the claim words it; since the stored value is a function of the
serialized range bytes alone, the result is the same on every call with
fixed input field values. -/
theorem c2_crcA_stored (c : Commands.Command) (s e t : Nat)
    (c2 : Commands.Command) (tf : Commands.Field)
    (hget : c.fields[t]? = some tf)
    (hfirst : c.fields.findIdx? (fun g => g.name == tf.name) = some t)
    (h : c.crc16_calculate s e t = .ok c2) :
    ∃ data, c.get_raw s (some e) = .ok data ∧
      c2.fields[t]? = some { tf with value := Commands.swapBytes (Commands.crc16_register (data.take (sizeBits (Commands.sliceFields c.fields s e) / 8))) } := by
  obtain ⟨data, tf2, fj, j, hdata, htf2, hidx2, hj2, hfields⟩ :=
    crc16_calculate_inv c s e t c2 h
  have htfeq : tf = tf2 := by
    rw [hget] at htf2
    injection htf2 with hx
  subst htfeq
  have hjt : t = j := by
    rw [hfirst] at hidx2
    injection hidx2 with hx
  subst hjt
  have hfj : tf = fj := by
    rw [hget] at hj2
    injection hj2 with hx
  subst hfj
  have htlen : t < c.fields.length := by
    by_contra hx
    rw [List.getElem?_eq_none (by omega)] at hget
    cases hget
  refine ⟨data, hdata, ?_⟩
  rw [hfields]
  exact List.getElem?_set_self htlen

/-- C2 witness: the stored-value characterization at the CMD_BOARD_INFO
fixture over the range [1, 4] into index 5. -/
theorem c2_witness :
    Commands.Command.get_raw cmdBoard 1 (some 4) = .ok [0x56, 2, 0x58, 0, 0] ∧
    (⟨cmdBoard.fields.set 5 { name := "CRC", value := 58899, size := 16 }⟩ :
        Commands.Command).fields[5]?
      = some { name := "CRC", value := Commands.swapBytes (Commands.crc16_register ([0x56, 2, 0x58, 0, 0].take (sizeBits (Commands.sliceFields cmdBoard.fields 1 4) / 8))), size := 16 } := by
  have h0 : Commands.Command.get_raw cmdBoard 1 (some 4)
      = .ok [0x56, 2, 0x58, 0, 0] := by decide
  obtain ⟨data, h1, h2⟩ := c2_crcA_stored cmdBoard 1 4 5
    ⟨cmdBoard.fields.set 5 { name := "CRC", value := 58899, size := 16 }⟩
    { name := "CRC", value := 0, size := 16 } (by decide) (by decide) (by decide)
  rw [h0] at h1
  injection h1 with h3
  subst h3
  exact ⟨h0, h2⟩

/-- C2 counterexample: on the CMD_BOARD_INFO fixture the value stored at
the CRC field is 58899, which is not the final register value of the
register-form CRC over the range bytes, so the stored value is not the
register written big-endian but its byte swap. -/
theorem c2_counterexample :
    (Commands.Command.crc16_calculate cmdBoard 1 4 5).map
        (fun c => c.fields.map Commands.Field.value)
      = .ok [0x24, 0x56, 2, 0x58, 0, 58899] ∧
    (58899 : Nat) ≠ Commands.crc16_register [0x56, 2, 0x58, 0, 0] := by
  refine ⟨by decide, by decide⟩

end VISCA
